import Mathlib

/-!
Verification of the call-earnings transcript scraper.

This file gives a shallow embedding of the core logic of
`dcf_transcripts.py` (fragment fetching, fragment assembly, whitespace
normalization, rate-limit detection, heuristic speaker segmentation) and
`sandp_transcripts.py` (backoff policy, already-processed entry guard,
per-unit retry loop and batch iteration), and proves the behavioural
properties claimed for them.

Network and filesystem effects are modelled explicitly: a fetch is a
function from a fragment index (or retry attempt) to its outcome, and the
filesystem is a map from file names to the byte size of the stored file.
HTML-to-text extraction (BeautifulSoup) is an external library and is
abstracted away: the batch model works directly with the extracted,
normalized text of each fetch.
-/

set_option maxHeartbeats 1000000

namespace CallEarnings

/-! ### Python string primitives, modelled on `List Char`

Python's `str.strip`, substring containment (`in`), `str.lower`,
`str.split()` and `str.splitlines()` are modelled as executable functions
on character lists.  Only ASCII case folding and the universal newline
conventions (`\n`, `\r\n`, `\r`) are modelled; the claims under scrutiny
involve only ASCII data.
-/

/-- Characters stripped by Python's `str.strip()` (ASCII whitespace). -/
def pyIsSpace (c : Char) : Bool :=
  c = ' ' || c = '\t' || c = '\n' || c = '\r' || c = '\x0b' || c = '\x0c'

/-- Remove leading and trailing whitespace characters from a list. -/
def stripChars (l : List Char) : List Char :=
  ((l.dropWhile pyIsSpace).reverse.dropWhile pyIsSpace).reverse

/-- Python `s.strip()`. -/
def pyStrip (s : String) : String :=
  String.mk (stripChars s.toList)

/-- Does `l` start with the pattern `pat`? -/
def listStartsWith : List Char → List Char → Bool
  | [], _ => true
  | _ :: _, [] => false
  | p :: ps, c :: cs => p == c && listStartsWith ps cs

/-- Does `l` contain `pat` as a contiguous subsequence? -/
def listContainsSeq (pat : List Char) : List Char → Bool
  | [] => listStartsWith pat []
  | c :: cs => listStartsWith pat (c :: cs) || listContainsSeq pat cs

/-- Python `sub in hay` (substring containment). -/
def strContains (hay sub : String) : Bool :=
  listContainsSeq sub.toList hay.toList

/-- Python `s.lower()` (ASCII case folding). -/
def lowerAscii (s : String) : String :=
  String.mk (s.toList.map Char.toLower)

/-- Accumulator-style splitter for `str.split()` (split on whitespace
runs, dropping empty pieces). -/
def splitWsAux : List Char → List Char → List String
  | [], acc => if acc.isEmpty then [] else [String.mk acc.reverse]
  | c :: rest, acc =>
    if pyIsSpace c then
      (if acc.isEmpty then [] else [String.mk acc.reverse]) ++ splitWsAux rest []
    else
      splitWsAux rest (c :: acc)

/-- Python `s.split()` with no separator argument. -/
def pySplitWs (s : String) : List String :=
  splitWsAux s.toList []

/-- Accumulator-style splitter for `str.splitlines()` over the universal
newline conventions `\r\n`, `\r`, `\n`. -/
def splitlinesAux : List Char → List Char → List String
  | [], acc => if acc.isEmpty then [] else [String.mk acc.reverse]
  | '\r' :: '\n' :: rest, acc => String.mk acc.reverse :: splitlinesAux rest []
  | '\r' :: rest, acc => String.mk acc.reverse :: splitlinesAux rest []
  | '\n' :: rest, acc => String.mk acc.reverse :: splitlinesAux rest []
  | c :: rest, acc => splitlinesAux rest (c :: acc)

/-- Python `s.splitlines()`. -/
def pySplitlines (s : String) : List String :=
  splitlinesAux s.toList []

/-- Byte length of the UTF-8 encoding of a string (the size of a file
written with `encoding="utf-8"`). -/
def utf8Len (s : String) : Nat :=
  (s.toList.map Char.utf8Size).sum

/-! ### `dcf_transcripts.py`: whitespace normalization -/

/-- Model of `re.sub(r"\r\n|\r", "\n", s)`: convert Windows/Mac line endings. -/
def normNewlines : List Char → List Char
  | '\r' :: '\n' :: rest => '\n' :: normNewlines rest
  | '\r' :: rest => '\n' :: normNewlines rest
  | c :: rest => c :: normNewlines rest
  | [] => []

/-- Model of the newline-run collapse, fuel-indexed so that the recursion is
structural: whenever three newlines lead the list, one is dropped and the
remainder is reprocessed.  Each step consumes at least one character, so
`l.length` fuel always suffices (see `collapseBlankF_fuel`); the
exhausted-fuel case is unreachable from `collapseBlank`. -/
def collapseBlankF : Nat → List Char → List Char
  | _, [] => []
  | 0, l => l
  | fuel + 1, '\n' :: '\n' :: '\n' :: rest => collapseBlankF fuel ('\n' :: '\n' :: rest)
  | fuel + 1, c :: rest => c :: collapseBlankF fuel rest

/-- Model of the collapse regex substitution: every maximal run of three or more
newline characters becomes exactly two. -/
def collapseBlank (l : List Char) : List Char :=
  collapseBlankF l.length l

/-- The function `_normalize_whitespace` from `dcf_transcripts.py`: normalize line
endings, collapse newline runs, then strip. -/
def _normalize_whitespace (s : String) : String :=
  pyStrip (String.mk (collapseBlank (normNewlines s.toList)))

/-! ### `dcf_transcripts.py`: fragment fetching and assembly -/

/-- The body test `"Page Not Found" in body and "404" in body` for a 404
template served with a success status. -/
def notFoundTemplate (body : String) : Bool :=
  strContains body "Page Not Found" && strContains body "404"

/-- The function `_fetch_fragment`, as a classification of one HTTP response
`(status, text, url)`:
`.ok none` is the Absent outcome, `.ok (some body)` the Content outcome,
and `.error msg` the raised `TranscriptScrapeError`. -/
def _fetch_fragment (status : Nat) (text : String) (url : String) :
    Except String (Option String) :=
  if status = 404 then .ok none
  else if 400 ≤ status then .error ("HTTP " ++ toString status ++ " for " ++ url)
  else
    let body := pyStrip text
    if body = "" then .ok none
    else if notFoundTemplate body then .ok none
    else .ok (some body)

/-- Outcome of fetching one fragment index, abstracting `_fetch_fragment`:
index 0 stands for the base URL, index `i ≥ 1` for the `/i/` part URL. -/
inductive FetchOutcome where
  | content (body : String)
  | absent
  | error (msg : String)
deriving DecidableEq

/-- The message of the `TranscriptScrapeError` raised when no fragment was
ever collected. -/
def noContentMsg : String :=
  "No transcript fragments retrieved. This may be gated (login/anti-bot) or the URL pattern changed. Try passing csrftoken/cookies from the browser."

/-- The `for i in range(1, max_parts + 1)` loop of `get_transcript_html`:
`i` is the next index to request, the `Nat` argument the number of loop
iterations left, `frags` the fragments collected so far.  Returns the
final fragment list (or the propagated error) together with the list of
indices actually requested by this loop. -/
def scanPartsRun (fetch : Nat → FetchOutcome) :
    Nat → Nat → List String → Except String (List String) × List Nat
  | _, 0, frags => (.ok frags, [])
  | i, r + 1, frags =>
    match fetch i with
    | .error e => (.error e, [i])
    | .absent =>
      if frags.isEmpty then
        let p := scanPartsRun fetch (i + 1) r frags
        (p.1, i :: p.2)
      else
        (.ok frags, [i])
    | .content b =>
      let p := scanPartsRun fetch (i + 1) r (frags ++ [b])
      (p.1, i :: p.2)

/-- The tail of `get_transcript_html`: fail with `noContentMsg` if no
fragments were collected, otherwise join them with `"\n"`. -/
def joinOrFail : Except String (List String) → Except String String
  | .error e => .error e
  | .ok frags =>
    if frags.isEmpty then .error noContentMsg
    else .ok (String.intercalate "\n" frags)

/-- The function `get_transcript_html`, instrumented with the list of fragment indices
requested (index 0 is the base URL request, which always happens first).
The base fragment is appended only if truthy (`if first:`), numbered
fragments unconditionally. -/
def get_transcript_htmlRun (maxParts : Nat) (fetch : Nat → FetchOutcome) :
    Except String String × List Nat :=
  match fetch 0 with
  | .error e => (.error e, [0])
  | .absent =>
    let p := scanPartsRun fetch 1 maxParts []
    (joinOrFail p.1, 0 :: p.2)
  | .content b =>
    let p := scanPartsRun fetch 1 maxParts (if b = "" then [] else [b])
    (joinOrFail p.1, 0 :: p.2)

/-- The function `get_transcript_html` proper: just the returned document (or error). -/
def get_transcript_html (maxParts : Nat) (fetch : Nat → FetchOutcome) :
    Except String String :=
  (get_transcript_htmlRun maxParts fetch).1

/-! ### `dcf_transcripts.py`: rate-limit predicate -/

/-- The tuple `_LIMIT_REACHED_PATTERNS`. -/
def limitReachedPatterns : List String :=
  ["Request Limit Reached",
   "Forbidden - Request Limit Reached",
   "You seem to have reached your request limit"]

/-- The predicate `is_rate_limited_message`: case-insensitive containment of any
rate-limit phrase. -/
def is_rate_limited_message (text : String) : Bool :=
  limitReachedPatterns.any (fun p => strContains (lowerAscii text) (lowerAscii p))

/-! ### `dcf_transcripts.py`: heuristic speaker segmentation -/

structure SpeakerBlock where
  speaker : String
  text : String
deriving DecidableEq

/-- The boilerplate denylist of `looks_like_speaker`. -/
def boilerplateWords : List String :=
  ["Fiscal", "Quarter", "FY", "Download", "Insights", "Privacy", "Terms", "Disclaimer"]

/-- A regex word character (`\w`), ASCII fragment. -/
def isWordChar (c : Char) : Bool :=
  c.isAlphanum || c = '_'

/-- Case-insensitive match of pattern `p` at the head of `l`. -/
def ciMatchesAt : List Char → List Char → Bool
  | [], _ => true
  | _ :: _, [] => false
  | p :: ps, c :: cs => (p.toLower == c.toLower) && ciMatchesAt ps cs

/-- Does `w` occur at the head of `l` delimited by word boundaries?
`prev` is the character just before `l` (none at the start of the line). -/
def wordAt (w : List Char) (prev : Option Char) (l : List Char) : Bool :=
  (match prev with
   | none => true
   | some c => !isWordChar c)
  && ciMatchesAt w l
  && (match l.drop w.length with
      | [] => true
      | c :: _ => !isWordChar c)

/-- Model of the word-boundary regex search: scan all positions of `l`. -/
def wordSearch (w : List Char) : Option Char → List Char → Bool
  | prev, [] => wordAt w prev []
  | prev, c :: cs => wordAt w prev (c :: cs) || wordSearch w (some c) cs

/-- Does the line match the boilerplate denylist regex? -/
def hasBoilerplateWord (line : String) : Bool :=
  boilerplateWords.any (fun w => wordSearch w.toList none line.toList)

/-- The predicate `looks_like_speaker` from `_parse_speaker_blocks_from_text`. -/
def looks_like_speaker (line : String) : Bool :=
  if line.length > 60 then false
  else if hasBoilerplateWord line then false
  else if line.toList.any (fun c => c = '.' || c = '!' || c = '?') then false
  else
    let w := pySplitWs line
    decide (1 ≤ w.length) && decide (w.length ≤ 5)

/-- The inner `flush()`: append the accumulated block if both the current speaker
and the buffer are truthy. -/
def flushInto (blocks : List SpeakerBlock) (cur : Option String) (buf : List String) :
    List SpeakerBlock :=
  match cur with
  | some sp =>
    if sp ≠ "" ∧ ¬buf.isEmpty then
      blocks ++ [⟨sp, _normalize_whitespace (String.intercalate " " buf)⟩]
    else blocks
  | none => blocks

/-- The line loop of `_parse_speaker_blocks_from_text`. -/
def segLoop : List String → Option String → List String → List SpeakerBlock →
    List SpeakerBlock
  | [], cur, buf, blocks => flushInto blocks cur buf
  | ln :: rest, cur, buf, blocks =>
    if looks_like_speaker ln then
      segLoop rest (some ln) [] (flushInto blocks cur buf)
    else
      match cur with
      | some sp =>
        if sp ≠ "" then segLoop rest cur (buf ++ [ln]) blocks
        else segLoop rest cur buf blocks
      | none => segLoop rest cur buf blocks

/-- The stripped, blank-filtered line list the segmenter operates on. -/
def procLines (full_text : String) : List String :=
  ((pySplitlines full_text).map pyStrip).filter (fun ln => ln ≠ "")

/-- The function `_parse_speaker_blocks_from_text`. -/
def _parse_speaker_blocks_from_text (full_text : String) : List SpeakerBlock :=
  let blocks := segLoop (procLines full_text) none [] []
  if blocks.isEmpty then [⟨"Unknown", full_text⟩] else blocks

/-! ### `sandp_transcripts.py`: backoff policy -/

/-- The function `_backoff_delay_s`: exponential backoff with a random scaling factor.
`r` models the value drawn by `random.random()` (a real in `[0, 1)`);
float arithmetic is modelled over `ℚ` (the literals `0.7`, `0.6`, `15`,
`600` are exact). -/
def _backoff_delay_s (attempt : Nat) (r : ℚ) (base : ℚ := 15) (cap : ℚ := 600) : ℚ :=
  min cap (base * 2 ^ attempt) * (0.7 + r * 0.6)

/-! ### `sandp_transcripts.py`: filesystem model and entry guard -/

/-- The filesystem: maps a file name to the byte size of the file, or
`none` when the file does not exist.  File names are modelled as
`stem ++ ".txt"` / `stem ++ ".csv"`; the per-ticker directory is
determined by the stem's ticker component so it is folded into the key. -/
def FS : Type := String → Option Nat

/-- Writing a file (`Path.write_text` / the csv writer): the key now maps
to the new size, everything else is unchanged. -/
def writeFile (fs : FS) (k : String) (sz : Nat) : FS :=
  fun p => if p = k then some sz else fs p

/-- The test `p.exists() and p.stat().st_size > 0`. -/
def posFile (fs : FS) (k : String) : Bool :=
  match fs k with
  | some n => decide (0 < n)
  | none => false

/-- The expected output files of `_already_processed`. -/
def expectedFiles (stem : String) (save_txt save_csv : Bool) : List String :=
  (if save_txt then [stem ++ ".txt"] else []) ++
  (if save_csv then [stem ++ ".csv"] else [])

/-- The function `_already_processed` from `sandp_transcripts.py`. -/
def _already_processed (fs : FS) (stem : String) (save_txt save_csv : Bool) : Bool :=
  let expected := expectedFiles stem save_txt save_csv
  if expected.isEmpty then false
  else expected.all (posFile fs)

/-! ### `sandp_transcripts.py`: per-unit retry loop and batch iteration -/

/-- The outcome of one `get_transcript_html` + `transcript_text_from_html`
pass for a unit, at a given retry attempt:
either the extracted normalized text, a raised `TranscriptScrapeError`
with its message, or an unexpected exception with its message. -/
inductive UnitFetchResult where
  | text (t : String)
  | scrapeError (m : String)
  | unexpectedError (m : String)
deriving DecidableEq

/-- How one `(ticker, quarter)` unit of work ends (when it does not abort
the whole batch). -/
inductive UnitResult where
  | skippedDone
  | ok (t : String)
  | skippedScrape (m : String)
  | skippedUnexpected (m : String)
deriving DecidableEq

/-- Record of one unit's processing: its result, how many network fetch
passes it performed, and whether the pacing `_sleep_with_jitter` call at
the end of the loop body was reached for it (the `continue` taken on the
already-processed path bypasses that call). -/
structure UnitTrace where
  result : UnitResult
  fetches : Nat
  paced : Bool
deriving DecidableEq

/-- The message of the run-fatal `RateLimitReached` error. -/
def rateLimitFatalMsg : String := "Rate limit reached (exhausted retries)"

/-- Is a fetch outcome detected as rate-limited (normalized text matching
the predicate, or a scrape error whose message matches it)? -/
def resultRateLimited : UnitFetchResult → Bool
  | .text t => is_rate_limited_message t
  | .scrapeError m => is_rate_limited_message m
  | .unexpectedError _ => false

/-- The body of the `while True` retry loop of
`fetch_all_transcripts_for_year` for one unit. `env a` is the outcome of
the fetch pass at attempt `a`.  `.error` models the run-fatal
`RateLimitReached`; `.ok (r, n)` the loop ending with result `r` after
`n` fetch passes.  The loop can only re-enter while `attempt` is below
`maxRetries`, so `maxRetries + 1 - attempt` iterations always suffice;
`fuel` carries that bound structurally, and the exhausted-fuel case
(unreachable from the loop entry, see `processUnitLoop_fuel`) returns the
same fatal error the exhausted-retries path does. -/
def processUnitFuel (env : Nat → UnitFetchResult) (maxRetries : Nat) :
    Nat → Nat → Except String (UnitResult × Nat)
  | 0, _ => .error rateLimitFatalMsg
  | fuel + 1, attempt =>
    match env attempt with
    | .text t =>
      if is_rate_limited_message t then
        if maxRetries ≤ attempt then .error rateLimitFatalMsg
        else
          match processUnitFuel env maxRetries fuel (attempt + 1) with
          | .error m => .error m
          | .ok (r, n) => .ok (r, n + 1)
      else .ok (.ok t, 1)
    | .scrapeError m =>
      if is_rate_limited_message m then
        if maxRetries ≤ attempt then .error rateLimitFatalMsg
        else
          match processUnitFuel env maxRetries fuel (attempt + 1) with
          | .error m2 => .error m2
          | .ok (r, n) => .ok (r, n + 1)
      else .ok (.skippedScrape m, 1)
    | .unexpectedError m => .ok (.skippedUnexpected m, 1)

/-- The retry loop entered at attempt `attempt`. -/
def processUnitLoop (env : Nat → UnitFetchResult) (maxRetries : Nat) (attempt : Nat) :
    Except String (UnitResult × Nat) :=
  processUnitFuel env maxRetries (maxRetries + 1 - attempt) attempt

/-- Batch configuration: the `save_txt` / `save_csv` flags and
`max_rate_limit_retries`. -/
structure BatchConfig where
  save_txt : Bool
  save_csv : Bool
  maxRetries : Nat

/-- The header row `sequence,speaker,text\r\n` written by the csv writer
before any data row (22 bytes). -/
def csvHeaderBytes : Nat := 22

/-- Approximate byte size of one csv data row; only the fact that the
total file size is positive (the header is always written) is ever used. -/
def csvRowBytes (b : SpeakerBlock) : Nat :=
  utf8Len b.speaker + utf8Len b.text + 5

/-- Byte size of the csv written by `save_transcript_csv_from_blocks`. -/
def csvFileBytes (blocks : List SpeakerBlock) : Nat :=
  csvHeaderBytes + (blocks.map csvRowBytes).sum

/-- The output writes performed after a successful fetch: the `.txt`
(when requested) with the normalized text, then the `.csv` (when
requested) with the speaker blocks derived from the same text. -/
def unitWrites (cfg : BatchConfig) (fs : FS) (stem : String) : UnitResult → FS
  | .ok t =>
    let fs1 := if cfg.save_txt then writeFile fs (stem ++ ".txt") (utf8Len t) else fs
    if cfg.save_csv then
      writeFile fs1 (stem ++ ".csv") (csvFileBytes (_parse_speaker_blocks_from_text t))
    else fs1
  | _ => fs

/-- One unit of the batch: the already-processed entry guard (zero
fetches, pacing call bypassed by `continue`), else the retry loop
followed by the output writes and the pacing call. -/
def runUnit (cfg : BatchConfig) (env : Nat → UnitFetchResult) (fs : FS) (stem : String) :
    Except String (UnitTrace × FS) :=
  if _already_processed fs stem cfg.save_txt cfg.save_csv then
    .ok (⟨.skippedDone, 0, false⟩, fs)
  else
    match processUnitLoop env cfg.maxRetries 0 with
    | .error m => .error m
    | .ok (r, n) => .ok (⟨r, n, true⟩, unitWrites cfg fs stem r)

/-- The batch iteration over the flattened `(ticker, quarter)` unit list:
a run-fatal error aborts everything, any other unit result is recorded
and iteration continues. -/
def runBatch (cfg : BatchConfig) (env : String → Nat → UnitFetchResult) :
    List String → FS → Except String (List UnitTrace × FS)
  | [], fs => .ok ([], fs)
  | stem :: rest, fs =>
    match runUnit cfg (env stem) fs stem with
    | .error m => .error m
    | .ok (tr, fs1) =>
      match runBatch cfg env rest fs1 with
      | .error m => .error m
      | .ok (trs, fs2) => .ok (tr :: trs, fs2)

/-- The function `_safe_filename`: each maximal run of characters outside
`[A-Za-z0-9._-]` becomes a single `_`. -/
def okFileChar (c : Char) : Bool :=
  c.isAlphanum || c = '.' || c = '_' || c = '-'

lemma length_dropWhile_le (p : Char → Bool) (l : List Char) :
    (l.dropWhile p).length ≤ l.length :=
  (List.dropWhile_sublist p).length_le

/-- Fuel-indexed body of `_safe_filename`; `l.length` fuel always
suffices since each step consumes at least one character. -/
def safeFilenameF : Nat → List Char → List Char
  | _, [] => []
  | 0, l => l
  | fuel + 1, c :: rest =>
    if okFileChar c then c :: safeFilenameF fuel rest
    else '_' :: safeFilenameF fuel (rest.dropWhile (fun d => !okFileChar d))

def safeFilenameChars (l : List Char) : List Char :=
  safeFilenameF l.length l

def _safe_filename (s : String) : String :=
  String.mk (safeFilenameChars s.toList)

/-- The stem `f"{ticker_safe}_{year}_Q{q}"` of a unit. -/
def unitStem (year : Nat) (ticker : String) (q : Nat) : String :=
  _safe_filename ticker ++ "_" ++ toString year ++ "_Q" ++ toString q

/-- The flattened unit list of the nested
`for raw_ticker in tickers: for q in quarters:` loops. -/
def unitStems (tickers : List String) (quarters : List Nat) (year : Nat) : List String :=
  tickers.flatMap (fun t => quarters.map (unitStem year t))

/-- The function `fetch_all_transcripts_for_year`, as the batch iteration over the
units derived from the ticker list and the quarter list. -/
def fetch_all_transcripts_for_year (cfg : BatchConfig)
    (env : String → Nat → UnitFetchResult) (tickers : List String)
    (quarters : List Nat) (year : Nat) (fs : FS) :
    Except String (List UnitTrace × FS) :=
  runBatch cfg env (unitStems tickers quarters year) fs

/-- Total number of network fetch passes recorded in a trace list. -/
def totalFetches (trs : List UnitTrace) : Nat :=
  (trs.map UnitTrace.fetches).sum

/-- Every output file expected for a unit exists with positive size. -/
def expectedPosIn (cfg : BatchConfig) (fs : FS) (stem : String) : Prop :=
  (cfg.save_txt = true → posFile fs (stem ++ ".txt") = true)
  ∧ (cfg.save_csv = true → posFile fs (stem ++ ".csv") = true)

/-- A concrete fetch environment used to exercise the idempotent re-run
property: every fetch succeeds with the same short text. -/
def c6Env : String → Nat → UnitFetchResult := fun _ _ => .text "Hello world."

/-- The filesystem produced by one successful run of `c6Env` over the
single unit `"S1"` starting from an empty directory. -/
def c6Fs1 : FS :=
  writeFile (writeFile (fun _ => none) "S1.txt" (utf8Len "Hello world."))
    "S1.csv" (csvFileBytes (_parse_speaker_blocks_from_text "Hello world."))

/-! ## Helper lemmas -/

/-- During the numbered scan, if every index in range is Absent the
fragment list stays empty. -/
lemma scanPartsRun_all_absent (fetch : Nat → FetchOutcome) :
    ∀ r i, (∀ j, j < r → fetch (i + j) = .absent) →
      (scanPartsRun fetch i r []).1 = .ok [] := by
  intro r
  induction r with
  | zero => intro i _; rfl
  | succ r ih =>
    intro i h
    have h0 : fetch i = .absent := by simpa using h 0 (Nat.succ_pos r)
    simp only [scanPartsRun, h0, List.isEmpty_nil, if_true]
    exact ih (i + 1) (fun j hj => by
      have := h (j + 1) (by omega)
      rw [show i + 1 + j = i + (j + 1) from by omega]
      exact this)

/-- The indices requested by the numbered scan form a contiguous block
starting at the scan's first index. -/
lemma scanPartsRun_req (fetch : Nat → FetchOutcome) :
    ∀ r i frags, ∃ j, j ≤ r ∧
      (scanPartsRun fetch i r frags).2 = (List.range j).map (i + ·) := by
  intro r
  induction r with
  | zero => intro i frags; exact ⟨0, Nat.le_refl 0, by simp [scanPartsRun]⟩
  | succ r ih =>
    intro i frags
    cases hf : fetch i with
    | error e =>
      refine ⟨1, by omega, ?_⟩
      simp [scanPartsRun, hf, List.range_succ]
    | absent =>
      by_cases he : frags.isEmpty
      · obtain ⟨j, hj, hr⟩ := ih (i + 1) frags
        refine ⟨j + 1, by omega, ?_⟩
        simp only [scanPartsRun, hf, he, if_true, hr]
        rw [List.range_succ_eq_map]
        simp only [List.map_cons, List.map_map, Nat.add_zero]
        refine congrArg (i :: ·) (List.map_congr_left fun a _ => ?_)
        simp [Function.comp]; omega
      · refine ⟨1, by omega, ?_⟩
        simp [scanPartsRun, hf, he, List.range_succ]
    | content b =>
      obtain ⟨j, hj, hr⟩ := ih (i + 1) (frags ++ [b])
      refine ⟨j + 1, by omega, ?_⟩
      simp only [scanPartsRun, hf, hr]
      rw [List.range_succ_eq_map]
      simp only [List.map_cons, List.map_map, Nat.add_zero]
      refine congrArg (i :: ·) (List.map_congr_left fun a _ => ?_)
      simp [Function.comp]; omega

/-- Lines that are not speaker labels are skipped entirely while no
current speaker is set. -/
lemma segLoop_skip : ∀ (pre rest : List String),
    (∀ l ∈ pre, looks_like_speaker l = false) →
    segLoop (pre ++ rest) none [] [] = segLoop rest none [] [] := by
  intro pre
  induction pre with
  | nil => intro rest _; rfl
  | cons a pre ih =>
    intro rest hpre
    have ha : looks_like_speaker a = false := hpre a (by simp)
    simp only [List.cons_append, segLoop, ha, Bool.false_eq_true, if_false]
    exact ih rest (fun l hl => hpre l (by simp [hl]))

/-! ## Claim C5: backoff delay -/

/-- C5: for every attempt `a` and random draw `r ∈ [0, 1)`, the backoff
delay with the default base 15 and cap 600 equals
`min 600 (15 * 2 ^ a)` scaled by `0.7 + 0.6 * r`, a factor in
`[0.7, 1.3]`; the attempt-0 delay lies in `[10.5, 19.5]`, and for every
`a ≥ 6` the pre-scaling delay is exactly 600. -/
theorem c5_backoff_delay_bounds (a : Nat) (r : ℚ) (h0 : 0 ≤ r) (h1 : r < 1) :
    _backoff_delay_s a r = min 600 (15 * 2 ^ a) * (0.7 + 0.6 * r)
    ∧ (0.7 : ℚ) ≤ 0.7 + 0.6 * r ∧ (0.7 + 0.6 * r : ℚ) ≤ 1.3
    ∧ (a = 0 → 10.5 ≤ _backoff_delay_s a r ∧ _backoff_delay_s a r ≤ 19.5)
    ∧ (6 ≤ a → min (600 : ℚ) (15 * 2 ^ a) = 600) := by
  refine ⟨by unfold _backoff_delay_s; ring, by norm_num [h0], by norm_num; linarith, ?_, ?_⟩
  · rintro rfl
    unfold _backoff_delay_s
    have hm : min (600 : ℚ) (15 * 2 ^ (0 : Nat)) = 15 := by norm_num
    rw [hm]
    constructor <;> nlinarith
  · intro h6
    have h2 : (2 : ℚ) ^ 6 ≤ 2 ^ a := pow_le_pow_right₀ (by norm_num) h6
    have : (600 : ℚ) ≤ 15 * 2 ^ a := by nlinarith
    exact min_eq_left this

/-- Witness for C5 at `a = 0`, `r = 1/2`. -/
theorem c5_backoff_delay_bounds_witness :
    0 ≤ (1/2 : ℚ) ∧ (1/2 : ℚ) < 1 ∧
      (10.5 ≤ _backoff_delay_s 0 (1/2) ∧ _backoff_delay_s 0 (1/2) ≤ 19.5) :=
  ⟨by norm_num, by norm_num,
    (c5_backoff_delay_bounds 0 (1/2) (by norm_num) (by norm_num)).2.2.2.1 rfl⟩

/-! ## Claim C3: fragment fetcher classification -/

/-- C3: the fragment fetcher classifies every response into exactly one
of three outcomes — Content (2xx, non-empty stripped body, not the
not-found template), Absent (404, or success with empty body, or success
with the not-found template), or a scrape error carrying the status code
and resolved URL (any other 4xx/5xx). -/
theorem c3_fetch_fragment_classification (status : Nat) (text url : String) :
    (200 ≤ status → status < 300 → pyStrip text ≠ "" →
        notFoundTemplate (pyStrip text) = false →
        _fetch_fragment status text url = .ok (some (pyStrip text)))
    ∧ (status = 404 ∨ (200 ≤ status ∧ status < 300 ∧
          (pyStrip text = "" ∨ notFoundTemplate (pyStrip text) = true)) →
        _fetch_fragment status text url = .ok none)
    ∧ (400 ≤ status → status < 600 → status ≠ 404 →
        _fetch_fragment status text url =
          .error ("HTTP " ++ toString status ++ " for " ++ url)) := by
  refine ⟨?_, ?_, ?_⟩
  · intro _ h3 hne htpl
    have h404 : ¬status = 404 := by omega
    have h400 : ¬400 ≤ status := by omega
    simp [_fetch_fragment, h404, h400, hne, htpl]
  · rintro (rfl | ⟨_, h3, hbody⟩)
    · simp [_fetch_fragment]
    · have h404 : ¬status = 404 := by omega
      have h400 : ¬400 ≤ status := by omega
      rcases hbody with hb | ht
      · simp [_fetch_fragment, h404, h400, hb]
      · by_cases hb : pyStrip text = "" <;>
          simp [_fetch_fragment, h404, h400, hb, ht]
  · intro h4 _ h404
    simp [_fetch_fragment, h404, h4]

/-- Witness for C3: a 200 response with body `" hello "`. -/
theorem c3_fetch_fragment_classification_witness :
    pyStrip " hello " ≠ "" ∧ notFoundTemplate (pyStrip " hello ") = false ∧
      _fetch_fragment 200 " hello " "u" = .ok (some (pyStrip " hello ")) :=
  ⟨by decide, by decide,
    (c3_fetch_fragment_classification 200 " hello " "u").1 (by omega) (by omega)
      (by decide) (by decide)⟩

/-! ## Claim C4: all-absent assembly raises the empty-result error -/

/-- C4: when every fetch within the configured range is Absent, assembly
raises the "no content retrieved" scrape error rather than returning. -/
theorem c4_all_absent_raises (M : Nat) (fetch : Nat → FetchOutcome)
    (h : ∀ i, i ≤ M → fetch i = .absent) :
    get_transcript_html M fetch = .error noContentMsg := by
  have h0 : fetch 0 = .absent := h 0 (Nat.zero_le M)
  have hs : (scanPartsRun fetch 1 M []).1 = .ok [] :=
    scanPartsRun_all_absent fetch M 1 (fun j hj => h (1 + j) (by omega))
  simp only [get_transcript_html, get_transcript_htmlRun, h0]
  rw [hs]
  rfl

/-- Witness for C4 with `maxParts = 5` and every index Absent. -/
theorem c4_all_absent_raises_witness :
    get_transcript_html 5 (fun _ => .absent) = .error noContentMsg :=
  c4_all_absent_raises 5 (fun _ => .absent) (fun _ _ => rfl)

/-! ## Claim C9: no candidate labels gives one Unknown block -/

/-- C9: if no processed line of the input qualifies as a candidate
speaker label, the segmenter returns exactly one block with the sentinel
speaker `"Unknown"` and the full input text. -/
theorem c9_no_labels_unknown_block (t : String)
    (h : ∀ ln ∈ procLines t, looks_like_speaker ln = false) :
    _parse_speaker_blocks_from_text t = [⟨"Unknown", t⟩] := by
  have hseg : segLoop (procLines t) none [] [] = [] := by
    have := segLoop_skip (procLines t) [] h
    simpa using this
  simp [_parse_speaker_blocks_from_text, hseg]

/-- Witness for C9 on a text whose only line contains punctuation. -/
theorem c9_no_labels_unknown_block_witness :
    (∀ ln ∈ procLines "This is a sentence. It has punctuation!",
        looks_like_speaker ln = false) ∧
      _parse_speaker_blocks_from_text "This is a sentence. It has punctuation!" =
        [⟨"Unknown", "This is a sentence. It has punctuation!"⟩] :=
  ⟨by decide, c9_no_labels_unknown_block _ (by decide)⟩

/-! ## Claim C1: assembly scan order and stopping rule -/

/-- C1: assembly requests the base fragment first and then numbered
indices in increasing order with no gaps (the requested indices are an
initial range); an Absent at a numbered index stops the scan immediately
when fragments have been collected, but is skipped when none have; with
indices 0, 1, 2 present and 3 absent the result is the three fragments
joined in order and nothing past index 3 is requested; with index 0
absent and index 1 present, the scan does not stop at index 0. -/
theorem c1_assembly_scan_order :
    (∀ (M : Nat) (fetch : Nat → FetchOutcome), ∃ k, 1 ≤ k ∧ k ≤ M + 1 ∧
        (get_transcript_htmlRun M fetch).2 = List.range k)
    ∧ (∀ (fetch : Nat → FetchOutcome) (i r : Nat) (frags : List String),
        frags ≠ [] → fetch i = .absent →
        scanPartsRun fetch i (r + 1) frags = (.ok frags, [i]))
    ∧ (∀ (fetch : Nat → FetchOutcome) (i r : Nat), fetch i = .absent →
        scanPartsRun fetch i (r + 1) [] =
          ((scanPartsRun fetch (i + 1) r []).1, i :: (scanPartsRun fetch (i + 1) r []).2))
    ∧ (∀ (M : Nat) (fetch : Nat → FetchOutcome) (b0 b1 b2 : String), 3 ≤ M →
        fetch 0 = .content b0 → b0 ≠ "" → fetch 1 = .content b1 →
        fetch 2 = .content b2 → fetch 3 = .absent →
        get_transcript_htmlRun M fetch =
          (.ok (String.intercalate "\n" [b0, b1, b2]), [0, 1, 2, 3]))
    ∧ (∀ (M : Nat) (fetch : Nat → FetchOutcome) (b1 : String), 2 ≤ M →
        fetch 0 = .absent → fetch 1 = .content b1 → fetch 2 = .absent →
        get_transcript_htmlRun M fetch = (.ok b1, [0, 1, 2])) := by
  refine ⟨?_, ?_, ?_, ?_, ?_⟩
  · intro M fetch
    cases hf : fetch 0 with
    | error e => exact ⟨1, by omega, by omega, by simp [get_transcript_htmlRun, hf, List.range_succ]⟩
    | absent =>
      obtain ⟨j, hj, hr⟩ := scanPartsRun_req fetch M 1 []
      refine ⟨j + 1, by omega, by omega, ?_⟩
      simp only [get_transcript_htmlRun, hf, hr]
      rw [List.range_succ_eq_map]
      exact congrArg (List.cons 0) (List.map_congr_left fun a _ => Nat.add_comm 1 a)
    | content b =>
      obtain ⟨j, hj, hr⟩ := scanPartsRun_req fetch M 1 (if b = "" then [] else [b])
      refine ⟨j + 1, by omega, by omega, ?_⟩
      simp only [get_transcript_htmlRun, hf, hr]
      rw [List.range_succ_eq_map]
      exact congrArg (List.cons 0) (List.map_congr_left fun a _ => Nat.add_comm 1 a)
  · intro fetch i r frags hne habs
    have he : frags.isEmpty = false := by
      cases frags with
      | nil => exact absurd rfl hne
      | cons a l => rfl
    simp [scanPartsRun, habs, he]
  · intro fetch i r habs
    simp [scanPartsRun, habs]
  · intro M fetch b0 b1 b2 hM h0 hb0 h1 h2 h3
    obtain ⟨m, rfl⟩ : ∃ m, M = m + 3 := ⟨M - 3, by omega⟩
    simp [get_transcript_htmlRun, h0, hb0, scanPartsRun, h1, h2, h3, joinOrFail]
  · intro M fetch b1 hM h0 h1 h2
    obtain ⟨m, rfl⟩ : ∃ m, M = m + 2 := ⟨M - 2, by omega⟩
    have hi : String.intercalate "\n" [b1] = b1 := rfl
    simp [get_transcript_htmlRun, h0, scanPartsRun, h1, h2, joinOrFail, hi]

/-- Witness for C1: the concrete scenario with fragments at indices
0, 1, 2 and Absent from index 3 on. -/
theorem c1_assembly_scan_order_witness :
    get_transcript_htmlRun 10
        (fun i => if i = 0 then .content "a" else if i = 1 then .content "b"
          else if i = 2 then .content "c" else .absent) =
      (.ok (String.intercalate "\n" ["a", "b", "c"]), [0, 1, 2, 3]) :=
  c1_assembly_scan_order.2.2.2.1 10 _ "a" "b" "c" (by omega) rfl (by decide) rfl rfl rfl

/-! ## Claim C2: batch error policy -/

/-- One unfolding step of the retry loop when the fetch yields text. -/
lemma processUnitFuel_step_text (env : Nat → UnitFetchResult) (mr f a : Nat) (t : String)
    (henv : env a = .text t) :
    processUnitFuel env mr (f + 1) a =
      if is_rate_limited_message t then
        if mr ≤ a then .error rateLimitFatalMsg
        else
          match processUnitFuel env mr f (a + 1) with
          | .error m => .error m
          | .ok (r, n) => .ok (r, n + 1)
      else .ok (.ok t, 1) := by
  simp only [processUnitFuel, henv]

/-- One unfolding step of the retry loop when the fetch raises a scrape
error. -/
lemma processUnitFuel_step_scrape (env : Nat → UnitFetchResult) (mr f a : Nat) (m : String)
    (henv : env a = .scrapeError m) :
    processUnitFuel env mr (f + 1) a =
      if is_rate_limited_message m then
        if mr ≤ a then .error rateLimitFatalMsg
        else
          match processUnitFuel env mr f (a + 1) with
          | .error m2 => .error m2
          | .ok (r, n) => .ok (r, n + 1)
      else .ok (.skippedScrape m, 1) := by
  simp only [processUnitFuel, henv]

/-- One unfolding step of the retry loop on an unexpected exception. -/
lemma processUnitFuel_step_unexpected (env : Nat → UnitFetchResult) (mr f a : Nat)
    (m : String) (henv : env a = .unexpectedError m) :
    processUnitFuel env mr (f + 1) a = .ok (.skippedUnexpected m, 1) := by
  simp only [processUnitFuel, henv]

/-- A fatal outcome of the retry loop comes only from a rate-limited
fetch outcome at an attempt at or above the retry maximum. -/
lemma processUnitFuel_fatal (env : Nat → UnitFetchResult) (mr : Nat) :
    ∀ f a m, f = mr + 1 - a → a ≤ mr → processUnitFuel env mr f a = .error m →
      m = rateLimitFatalMsg ∧ ∃ b, a ≤ b ∧ mr ≤ b ∧ resultRateLimited (env b) = true := by
  intro f
  induction f with
  | zero => intro a m hf ha _; omega
  | succ f ih =>
    intro a m hf ha hrun
    cases henv : env a with
    | text t =>
      rw [processUnitFuel_step_text env mr f a t henv] at hrun
      by_cases hrl : is_rate_limited_message t
      · rw [if_pos hrl] at hrun
        by_cases hmr : mr ≤ a
        · rw [if_pos hmr] at hrun
          have hm : rateLimitFatalMsg = m := by injection hrun
          exact ⟨hm.symm, a, le_rfl, hmr, by simp [resultRateLimited, henv, hrl]⟩
        · rw [if_neg hmr] at hrun
          cases hrec : processUnitFuel env mr f (a + 1) with
          | error m2 =>
            rw [hrec] at hrun
            have hm : m2 = m := by
              simpa using hrun
            obtain ⟨hmsg, b, hb1, hb2, hb3⟩ := ih (a + 1) m2 (by omega) (by omega) hrec
            exact ⟨hm ▸ hmsg, b, by omega, hb2, hb3⟩
          | ok p =>
            obtain ⟨r, n⟩ := p
            rw [hrec] at hrun
            simp at hrun
      · rw [if_neg hrl] at hrun
        simp at hrun
    | scrapeError mm =>
      rw [processUnitFuel_step_scrape env mr f a mm henv] at hrun
      by_cases hrl : is_rate_limited_message mm
      · rw [if_pos hrl] at hrun
        by_cases hmr : mr ≤ a
        · rw [if_pos hmr] at hrun
          have hm : rateLimitFatalMsg = m := by injection hrun
          exact ⟨hm.symm, a, le_rfl, hmr, by simp [resultRateLimited, henv, hrl]⟩
        · rw [if_neg hmr] at hrun
          cases hrec : processUnitFuel env mr f (a + 1) with
          | error m2 =>
            rw [hrec] at hrun
            have hm : m2 = m := by
              simpa using hrun
            obtain ⟨hmsg, b, hb1, hb2, hb3⟩ := ih (a + 1) m2 (by omega) (by omega) hrec
            exact ⟨hm ▸ hmsg, b, by omega, hb2, hb3⟩
          | ok p =>
            obtain ⟨r, n⟩ := p
            rw [hrec] at hrun
            simp at hrun
      · rw [if_neg hrl] at hrun
        simp at hrun
    | unexpectedError mm =>
      rw [processUnitFuel_step_unexpected env mr f a mm henv] at hrun
      simp at hrun

/-- The retry loop never reports the entry-guard result. -/
lemma processUnitFuel_not_skippedDone (env : Nat → UnitFetchResult) (mr : Nat) :
    ∀ f a r n, processUnitFuel env mr f a = .ok (r, n) → r ≠ .skippedDone := by
  intro f
  induction f with
  | zero => intro a r n h; simp [processUnitFuel] at h
  | succ f ih =>
    intro a r n h
    cases henv : env a with
    | text t =>
      rw [processUnitFuel_step_text env mr f a t henv] at h
      by_cases hrl : is_rate_limited_message t
      · rw [if_pos hrl] at h
        by_cases hmr : mr ≤ a
        · rw [if_pos hmr] at h; simp at h
        · rw [if_neg hmr] at h
          cases hrec : processUnitFuel env mr f (a + 1) with
          | error m2 => rw [hrec] at h; simp at h
          | ok p =>
            obtain ⟨rr, nn⟩ := p
            rw [hrec] at h
            simp only [Except.ok.injEq, Prod.mk.injEq] at h
            exact h.1 ▸ ih (a + 1) rr nn hrec
      · rw [if_neg hrl] at h
        simp only [Except.ok.injEq, Prod.mk.injEq] at h
        rw [← h.1]
        intro hc
        cases hc
    | scrapeError mm =>
      rw [processUnitFuel_step_scrape env mr f a mm henv] at h
      by_cases hrl : is_rate_limited_message mm
      · rw [if_pos hrl] at h
        by_cases hmr : mr ≤ a
        · rw [if_pos hmr] at h; simp at h
        · rw [if_neg hmr] at h
          cases hrec : processUnitFuel env mr f (a + 1) with
          | error m2 => rw [hrec] at h; simp at h
          | ok p =>
            obtain ⟨rr, nn⟩ := p
            rw [hrec] at h
            simp only [Except.ok.injEq, Prod.mk.injEq] at h
            exact h.1 ▸ ih (a + 1) rr nn hrec
      · rw [if_neg hrl] at h
        simp only [Except.ok.injEq, Prod.mk.injEq] at h
        rw [← h.1]
        intro hc
        cases hc
    | unexpectedError mm =>
      rw [processUnitFuel_step_unexpected env mr f a mm henv] at h
      simp only [Except.ok.injEq, Prod.mk.injEq] at h
      rw [← h.1]
      intro hc
      cases hc

/-- If no unit's retry loop is fatal, the batch reaches the end of the
unit list, recording one trace per unit. -/
lemma runBatch_ok_of_no_fatal (cfg : BatchConfig) (env : String → Nat → UnitFetchResult) :
    ∀ stems fs,
      (∀ stem ∈ stems, ∀ m, processUnitLoop (env stem) cfg.maxRetries 0 ≠ .error m) →
      ∃ trs fs1, runBatch cfg env stems fs = .ok (trs, fs1) ∧ trs.length = stems.length := by
  intro stems
  induction stems with
  | nil => intro fs _; exact ⟨[], fs, rfl, rfl⟩
  | cons stem rest ih =>
    intro fs h
    have hrest : ∀ s ∈ rest, ∀ m, processUnitLoop (env s) cfg.maxRetries 0 ≠ .error m :=
      fun s hs m => h s (by simp [hs]) m
    by_cases hap : _already_processed fs stem cfg.save_txt cfg.save_csv
    · obtain ⟨trs, fs1, hrb, hlen⟩ := ih fs hrest
      refine ⟨⟨.skippedDone, 0, false⟩ :: trs, fs1, ?_, by simp [hlen]⟩
      simp [runBatch, runUnit, hap, hrb]
    · cases hpu : processUnitLoop (env stem) cfg.maxRetries 0 with
      | error m => exact absurd hpu (h stem (by simp) m)
      | ok p =>
        obtain ⟨r, n⟩ := p
        obtain ⟨trs, fs1, hrb, hlen⟩ := ih (unitWrites cfg fs stem r) hrest
        refine ⟨⟨r, n, true⟩ :: trs, fs1, ?_, by simp [hlen]⟩
        simp [runBatch, runUnit, hap, hpu, hrb]

/-- The entry guard: an already-processed unit is skipped, with zero
fetches and an unchanged filesystem. -/
lemma runUnit_already (cfg : BatchConfig) (env : Nat → UnitFetchResult) (fs : FS)
    (stem : String) (hap : _already_processed fs stem cfg.save_txt cfg.save_csv = true) :
    runUnit cfg env fs stem = .ok (⟨.skippedDone, 0, false⟩, fs) := by
  simp [runUnit, hap]

/-- A non-skipped unit records its retry-loop outcome and performs the
output writes. -/
lemma runUnit_run (cfg : BatchConfig) (env : Nat → UnitFetchResult) (fs : FS)
    (stem : String) (r : UnitResult) (n : Nat)
    (hap : _already_processed fs stem cfg.save_txt cfg.save_csv = false)
    (hpu : processUnitLoop env cfg.maxRetries 0 = .ok (r, n)) :
    runUnit cfg env fs stem = .ok (⟨r, n, true⟩, unitWrites cfg fs stem r) := by
  simp [runUnit, hap, hpu]

/-- A fatal retry-loop outcome aborts the unit (and hence the batch). -/
lemma runUnit_fatal (cfg : BatchConfig) (env : Nat → UnitFetchResult) (fs : FS)
    (stem : String) (m : String)
    (hap : _already_processed fs stem cfg.save_txt cfg.save_csv = false)
    (hpu : processUnitLoop env cfg.maxRetries 0 = .error m) :
    runUnit cfg env fs stem = .error m := by
  simp [runUnit, hap, hpu]

/-- A batch error traces back to some unit whose retry loop was fatal. -/
lemma runBatch_error_imp (cfg : BatchConfig) (env : String → Nat → UnitFetchResult) :
    ∀ stems fs m, runBatch cfg env stems fs = .error m →
      ∃ stem ∈ stems, processUnitLoop (env stem) cfg.maxRetries 0 = .error m := by
  intro stems
  induction stems with
  | nil => intro fs m h; simp [runBatch] at h
  | cons stem rest ih =>
    intro fs m h
    by_cases hap : _already_processed fs stem cfg.save_txt cfg.save_csv
    · simp only [runBatch, runUnit_already cfg (env stem) fs stem hap] at h
      cases hrb : runBatch cfg env rest fs with
      | error m2 =>
        simp only [hrb] at h
        have hm : m2 = m := by injection h
        obtain ⟨s, hs, hps⟩ := ih fs m2 hrb
        exact ⟨s, by simp [hs], hm ▸ hps⟩
      | ok p =>
        obtain ⟨trs, fs2⟩ := p
        simp only [hrb] at h
        simp at h
    · have hap2 : _already_processed fs stem cfg.save_txt cfg.save_csv = false := by
        simpa using hap
      cases hpu : processUnitLoop (env stem) cfg.maxRetries 0 with
      | error m2 =>
        simp only [runBatch, runUnit_fatal cfg (env stem) fs stem m2 hap2 hpu] at h
        have hm : m2 = m := by injection h
        exact ⟨stem, by simp, hm ▸ hpu⟩
      | ok p =>
        obtain ⟨r, n⟩ := p
        simp only [runBatch, runUnit_run cfg (env stem) fs stem r n hap2 hpu] at h
        cases hrb : runBatch cfg env rest (unitWrites cfg fs stem r) with
        | error m2 =>
          simp only [hrb] at h
          have hm : m2 = m := by injection h
          obtain ⟨s, hs, hps⟩ := ih _ m2 hrb
          exact ⟨s, by simp [hs], hm ▸ hps⟩
        | ok p2 =>
          obtain ⟨trs, fs2⟩ := p2
          simp only [hrb] at h
          simp at h

/-- The flattened unit list has one entry per (ticker, quarter) pair. -/
lemma unitStems_length (tickers : List String) (quarters : List Nat) (year : Nat) :
    (unitStems tickers quarters year).length = tickers.length * quarters.length := by
  induction tickers with
  | nil => simp [unitStems]
  | cons t ts ih =>
    simp only [unitStems, List.flatMap_cons, List.length_append, List.length_map,
      List.length_cons] at *
    rw [ih]
    ring

/-- C2: the only run-fatal condition of the batch is exhaustion of the
rate-limit retry budget.  A rate-limited fetch outcome at an attempt at
or above the maximum is immediately fatal; every fatal outcome traces
back to such an attempt; a non-rate-limited scrape error or an unexpected
exception ends the unit as skipped after one fetch; if no unit is fatal
the batch reaches the end of the unit list (one trace per (ticker,
quarter) unit); and a batch error always comes from some unit's fatal
retry-loop outcome. -/
theorem c2_batch_fatal_only_rate_limit :
    (∀ (env : Nat → UnitFetchResult) (mr a : Nat), mr ≤ a →
        resultRateLimited (env a) = true →
        processUnitLoop env mr a = .error rateLimitFatalMsg)
    ∧ (∀ (env : Nat → UnitFetchResult) (mr a : Nat) (m : String), a ≤ mr →
        processUnitLoop env mr a = .error m →
        m = rateLimitFatalMsg ∧ ∃ b, a ≤ b ∧ mr ≤ b ∧ resultRateLimited (env b) = true)
    ∧ (∀ (env : Nat → UnitFetchResult) (mr a : Nat) (m : String), a ≤ mr →
        env a = .scrapeError m → is_rate_limited_message m = false →
        processUnitLoop env mr a = .ok (.skippedScrape m, 1))
    ∧ (∀ (env : Nat → UnitFetchResult) (mr a : Nat) (m : String), a ≤ mr →
        env a = .unexpectedError m →
        processUnitLoop env mr a = .ok (.skippedUnexpected m, 1))
    ∧ (∀ (cfg : BatchConfig) (env : String → Nat → UnitFetchResult)
        (tickers : List String) (quarters : List Nat) (year : Nat) (fs : FS),
        (∀ stem ∈ unitStems tickers quarters year, ∀ m,
            processUnitLoop (env stem) cfg.maxRetries 0 ≠ .error m) →
        ∃ trs fs1,
          fetch_all_transcripts_for_year cfg env tickers quarters year fs = .ok (trs, fs1)
          ∧ trs.length = tickers.length * quarters.length)
    ∧ (∀ (cfg : BatchConfig) (env : String → Nat → UnitFetchResult)
        (tickers : List String) (quarters : List Nat) (year : Nat) (fs : FS) (m : String),
        fetch_all_transcripts_for_year cfg env tickers quarters year fs = .error m →
        ∃ stem ∈ unitStems tickers quarters year,
          processUnitLoop (env stem) cfg.maxRetries 0 = .error m) := by
  refine ⟨?_, ?_, ?_, ?_, ?_, ?_⟩
  · intro env mr a hma hrl
    rcases Nat.lt_or_ge mr a with hlt | hge
    · have h0 : mr + 1 - a = 0 := by omega
      simp [processUnitLoop, h0, processUnitFuel]
    · have h1 : mr + 1 - a = 0 + 1 := by omega
      rw [processUnitLoop, h1]
      simp only [processUnitFuel]
      cases henv : env a with
      | text t =>
        have ht : is_rate_limited_message t = true := by
          simpa [resultRateLimited, henv] using hrl
        simp [ht, hma]
      | scrapeError mm =>
        have ht : is_rate_limited_message mm = true := by
          simpa [resultRateLimited, henv] using hrl
        simp [ht, hma]
      | unexpectedError mm => simp [resultRateLimited, henv] at hrl
  · intro env mr a m ha h
    exact processUnitFuel_fatal env mr (mr + 1 - a) a m rfl ha h
  · intro env mr a m ha henv hrl
    have h1 : mr + 1 - a = (mr - a) + 1 := by omega
    rw [processUnitLoop, h1]
    simp [processUnitFuel, henv, hrl]
  · intro env mr a m ha henv
    have h1 : mr + 1 - a = (mr - a) + 1 := by omega
    rw [processUnitLoop, h1]
    simp [processUnitFuel, henv]
  · intro cfg env tickers quarters year fs h
    obtain ⟨trs, fs1, hrb, hlen⟩ :=
      runBatch_ok_of_no_fatal cfg env (unitStems tickers quarters year) fs h
    exact ⟨trs, fs1, hrb, by rw [hlen, unitStems_length]⟩
  · intro cfg env tickers quarters year fs m h
    exact runBatch_error_imp cfg env (unitStems tickers quarters year) fs m h

/-- Witness for C2: a unit whose first fetch already hits the rate limit
with a zero retry budget is immediately run-fatal. -/
theorem c2_batch_fatal_only_rate_limit_witness :
    resultRateLimited ((fun _ => .text "Request Limit Reached") 0) = true ∧
      processUnitLoop (fun _ => .text "Request Limit Reached") 0 0 =
        .error rateLimitFatalMsg :=
  ⟨by decide,
    c2_batch_fatal_only_rate_limit.1 (fun _ => .text "Request Limit Reached") 0 0
      (Nat.le_refl 0) (by decide)⟩

/-! ## Claim C8: pacing between units (corrected) -/

/-- Counterexample to C8 as stated: a unit that resolves as already
processed (skipped) completes, but the pacing sleep is not applied — the
`continue` on the entry-guard path bypasses the `_sleep_with_jitter`
call at the end of the loop body. -/
theorem c8_counterexample :
    runUnit ⟨true, true, 5⟩ (fun _ => .text "x") (fun _ => some 3) "S" =
      .ok (⟨.skippedDone, 0, false⟩, fun _ => some 3) ∧
    (⟨.skippedDone, 0, false⟩ : UnitTrace).paced = false :=
  ⟨rfl, rfl⟩

/-- C8 amended: the pacing delay is applied after a completed unit if and
only if the unit actually ran the fetch loop — units skipped by the
already-processed entry guard proceed to the next unit without it. -/
theorem c8_pacing_amended (cfg : BatchConfig) (env : Nat → UnitFetchResult) (fs : FS)
    (stem : String) (tr : UnitTrace) (fs1 : FS)
    (h : runUnit cfg env fs stem = .ok (tr, fs1)) :
    tr.paced = true ↔ tr.result ≠ .skippedDone := by
  unfold runUnit at h
  by_cases hap : _already_processed fs stem cfg.save_txt cfg.save_csv
  · rw [if_pos hap] at h
    simp only [Except.ok.injEq, Prod.mk.injEq] at h
    rw [← h.1]
    simp
  · rw [if_neg hap] at h
    cases hpu : processUnitLoop env cfg.maxRetries 0 with
    | error m => rw [hpu] at h; simp at h
    | ok p =>
      obtain ⟨r, n⟩ := p
      rw [hpu] at h
      simp only [Except.ok.injEq, Prod.mk.injEq] at h
      rw [← h.1]
      simpa using processUnitFuel_not_skippedDone env cfg.maxRetries _ 0 r n hpu

/-- Witness for C8 amended: a unit that runs the fetch loop is paced. -/
theorem c8_pacing_amended_witness :
    runUnit ⟨true, true, 5⟩ (fun _ => .text "Hello") (fun _ => none) "S" =
        .ok (⟨.ok "Hello", 1, true⟩,
          unitWrites ⟨true, true, 5⟩ (fun _ => none) "S" (.ok "Hello")) ∧
      ((⟨.ok "Hello", 1, true⟩ : UnitTrace).paced = true ↔
        (⟨.ok "Hello", 1, true⟩ : UnitTrace).result ≠ .skippedDone) :=
  ⟨rfl, c8_pacing_amended ⟨true, true, 5⟩ (fun _ => .text "Hello") (fun _ => none) "S"
    ⟨.ok "Hello", 1, true⟩ _ rfl⟩

/-! ## Claim C7: whitespace normalization (corrected) -/

lemma toList_mk (l : List Char) : (String.mk l).toList = l := rfl

/-- The triple-newline step of the collapse pass. -/
lemma collapseBlank_triple (rest : List Char) :
    collapseBlank ('\n' :: '\n' :: '\n' :: rest) = collapseBlank ('\n' :: '\n' :: rest) := rfl

/-- The collapse pass passes a non-newline head through. -/
lemma collapseBlank_cons_ne (c : Char) (l : List Char) (h : c ≠ '\n') :
    collapseBlank (c :: l) = c :: collapseBlank l := by
  rcases l with _ | ⟨d, _ | ⟨e, l2⟩⟩
  · simp [collapseBlank, collapseBlankF]
  · simp [collapseBlank, collapseBlankF]
  · show collapseBlankF (l2.length + 3) (c :: d :: e :: l2) =
      c :: collapseBlankF (l2.length + 2) (d :: e :: l2)
    rw [collapseBlankF.eq_def]
    split
    · simp_all
    · simp_all
    · simp_all
    · rename_i a b fuel cc rest hcond hfuel heq
      injection heq with h1 h2
      subst h1
      subst h2
      have hf : fuel = l2.length + 2 := by omega
      rw [hf]

/-- The collapse pass passes a single newline through. -/
lemma collapseBlank_single_nl (l : List Char) (h : l.head? ≠ some '\n') :
    collapseBlank ('\n' :: l) = '\n' :: collapseBlank l := by
  rcases l with _ | ⟨d, l2⟩
  · simp [collapseBlank, collapseBlankF]
  · have hd : d ≠ '\n' := by simpa using h
    show collapseBlankF (l2.length + 2) ('\n' :: d :: l2) =
      '\n' :: collapseBlankF (l2.length + 1) (d :: l2)
    rw [collapseBlankF.eq_def]
    split
    · simp_all
    · simp_all
    · simp_all
    · rename_i a b fuel cc rest hcond hfuel heq
      injection heq with h1 h2
      subst h1
      subst h2
      have hf : fuel = l2.length + 1 := by omega
      rw [hf]

/-- The collapse pass passes a double newline through. -/
lemma collapseBlank_double_nl (l : List Char) (h : l.head? ≠ some '\n') :
    collapseBlank ('\n' :: '\n' :: l) = '\n' :: '\n' :: collapseBlank l := by
  rcases l with _ | ⟨d, l2⟩
  · simp [collapseBlank, collapseBlankF]
  · have hd : d ≠ '\n' := by simpa using h
    show collapseBlankF (l2.length + 3) ('\n' :: '\n' :: d :: l2) =
      '\n' :: '\n' :: collapseBlankF (l2.length + 1) (d :: l2)
    rw [collapseBlankF.eq_def]
    split
    · simp_all
    · simp_all
    · simp_all
    · rename_i a b fuel cc rest hcond hfuel heq
      injection heq with h1 h2
      subst h1
      subst h2
      have hf : fuel = l2.length + 2 := by omega
      rw [hf]
      exact congrArg (List.cons '\n') (collapseBlank_single_nl (d :: l2) (by simpa using hd))

/-- The collapse pass is the identity on a newline-free block. -/
lemma collapseBlank_nonl_append : ∀ (a m : List Char), (∀ c ∈ a, c ≠ '\n') →
    collapseBlank (a ++ m) = a ++ collapseBlank m := by
  intro a
  induction a with
  | nil => intro m _; rfl
  | cons c a ih =>
    intro m h
    have hc : c ≠ '\n' := h c (by simp)
    rw [List.cons_append, collapseBlank_cons_ne c (a ++ m) hc,
      ih m (fun d hd => h d (by simp [hd]))]
    rfl

/-- A maximal run of `k` newlines becomes exactly `min k 2` newlines:
runs of one or two newlines are unchanged, longer runs become two. -/
lemma collapseBlank_run : ∀ (k : Nat) (rest : List Char), rest.head? ≠ some '\n' →
    collapseBlank (List.replicate k '\n' ++ rest) =
      List.replicate (min k 2) '\n' ++ collapseBlank rest
  | 0, rest, _ => by simp
  | 1, rest, h => by simpa using collapseBlank_single_nl rest h
  | 2, rest, h => by simpa using collapseBlank_double_nl rest h
  | (k + 3), rest, h => by
    have e1 : List.replicate (k + 3) '\n' ++ rest =
        '\n' :: '\n' :: '\n' :: (List.replicate k '\n' ++ rest) := by
      simp [List.replicate_succ]
    have e2 : ('\n' : Char) :: '\n' :: (List.replicate k '\n' ++ rest) =
        List.replicate (k + 2) '\n' ++ rest := by
      simp [List.replicate_succ]
    rw [e1, collapseBlank_triple, e2, collapseBlank_run (k + 2) rest h,
      show min (k + 2) 2 = 2 from by omega, show min (k + 3) 2 = 2 from by omega]

/-- The line-ending pass never leaves a carriage return. -/
lemma normNewlines_no_cr : ∀ l, '\r' ∉ normNewlines l := by
  intro l
  induction l using normNewlines.induct with
  | case1 rest ih => simp [normNewlines, ih]
  | case2 rest h ih => simp_all [normNewlines]
  | case3 c rest h ih => simp_all [normNewlines, eq_comm]
  | case4 => simp [normNewlines]

/-- The line-ending pass is the identity on carriage-return-free input. -/
lemma normNewlines_id : ∀ l, '\r' ∉ l → normNewlines l = l := by
  intro l
  induction l using normNewlines.induct with
  | case1 rest ih => intro h; simp at h
  | case2 rest h ih => intro hh; simp at hh
  | case3 c rest h ih => intro hh; simp_all [normNewlines]
  | case4 => intro _; rfl

/-- The collapse pass only keeps characters of its input. -/
lemma collapseBlankF_subset : ∀ (f : Nat) (l : List Char) (c : Char),
    c ∈ collapseBlankF f l → c ∈ l := by
  intro f l
  induction f, l using collapseBlankF.induct with
  | case1 f => simp [collapseBlankF]
  | case2 l h => intro c hc; simpa [collapseBlankF] using hc
  | case3 fuel rest ih =>
    intro c hc
    rw [show collapseBlankF (fuel + 1) ('\n' :: '\n' :: '\n' :: rest) =
      collapseBlankF fuel ('\n' :: '\n' :: rest) from rfl] at hc
    have := ih c hc
    simp at this
    simp [this]
  | case4 fuel c rest h ih =>
    intro d hd
    simp_all [collapseBlankF]
    rcases hd with h1 | h2
    · exact Or.inl h1
    · exact Or.inr (ih d h2)

/-- Stripping only keeps characters of its input. -/
lemma stripChars_subset (l : List Char) (c : Char) (h : c ∈ stripChars l) : c ∈ l := by
  unfold stripChars at h
  rw [List.mem_reverse] at h
  have h1 := (List.dropWhile_sublist pyIsSpace).mem h
  rw [List.mem_reverse] at h1
  exact (List.dropWhile_sublist pyIsSpace).mem h1

/-- The head surviving `dropWhile` fails the predicate. -/
lemma head?_dropWhile_not (p : Char → Bool) :
    ∀ (l : List Char) (c : Char), (l.dropWhile p).head? = some c → p c = false := by
  intro l
  induction l with
  | nil => intro c h; simp [List.dropWhile] at h
  | cons a l ih =>
    intro c h
    rw [List.dropWhile_cons] at h
    by_cases ha : p a
    · rw [if_pos ha] at h; exact ih c h
    · rw [if_neg ha] at h
      simp at h
      rw [← h]
      simpa using ha

/-- The dropped part of `dropWhile` is an initial segment of the list. -/
lemma dropWhile_append_eq (p : Char → Bool) :
    ∀ l : List Char, ∃ pre, pre ++ l.dropWhile p = l := by
  intro l
  induction l with
  | nil => exact ⟨[], rfl⟩
  | cons a l ih =>
    by_cases ha : p a
    · obtain ⟨pre, hpre⟩ := ih
      exact ⟨a :: pre, by simp [List.dropWhile_cons, ha, hpre]⟩
    · exact ⟨[], by simp [List.dropWhile_cons, ha]⟩

/-- A stripped list never ends in whitespace. -/
lemma stripChars_getLast (l : List Char) (c : Char)
    (h : (stripChars l).getLast? = some c) : pyIsSpace c = false := by
  unfold stripChars at h
  rw [List.getLast?_reverse] at h
  exact head?_dropWhile_not pyIsSpace _ c h

/-- A stripped list never starts with whitespace. -/
lemma stripChars_head (l : List Char) (c : Char)
    (h : (stripChars l).head? = some c) : pyIsSpace c = false := by
  unfold stripChars at h
  rw [List.head?_reverse] at h
  set X := ((l.dropWhile pyIsSpace).reverse).dropWhile pyIsSpace with hX
  have hne : X ≠ [] := by
    intro hc
    rw [hc] at h
    simp at h
  obtain ⟨pre, hpre⟩ := dropWhile_append_eq pyIsSpace ((l.dropWhile pyIsSpace).reverse)
  rw [← hX] at hpre
  have h2 : ((l.dropWhile pyIsSpace).reverse).getLast? = some c := by
    rw [← hpre, List.getLast?_append_of_ne_nil pre hne]
    exact h
  rw [List.getLast?_reverse] at h2
  exact head?_dropWhile_not pyIsSpace l c h2

/-- Counterexample to C7 as stated.  `"A\n\n\nB"` contains a run of two
consecutive blank lines — fewer than three — between `A` and `B`; the
claim says such runs are left unchanged, but normalization rewrites the
three newline characters to two, merging the two blank lines into one. -/
theorem c7_counterexample :
    _normalize_whitespace "A\n\n\nB" = "A\n\nB" ∧ ("A\n\nB" : String) ≠ "A\n\n\nB" :=
  ⟨rfl, by decide⟩

/-- C7 amended: normalization converts Windows/Mac line endings to `\n`
(no carriage return survives, and carriage-return-free input is
unchanged by that pass), collapses every maximal run of three or more
newline characters — two or more consecutive blank lines — to exactly two
newlines (one blank line) while leaving runs of at most two newlines
unchanged, and trims leading and trailing whitespace from the result. -/
theorem c7_normalize_whitespace_amended :
    (∀ (s : String), '\r' ∉ (_normalize_whitespace s).toList)
    ∧ (∀ (l : List Char), '\r' ∉ l → normNewlines l = l)
    ∧ (∀ (a : List Char) (k : Nat) (b : List Char), (∀ c ∈ a, c ≠ '\n') →
        b.head? ≠ some '\n' →
        collapseBlank (a ++ (List.replicate k '\n' ++ b)) =
          a ++ (List.replicate (min k 2) '\n' ++ collapseBlank b))
    ∧ (∀ (s : String) (c : Char),
        ((_normalize_whitespace s).toList.head? = some c → pyIsSpace c = false)
        ∧ ((_normalize_whitespace s).toList.getLast? = some c → pyIsSpace c = false))
    ∧ _normalize_whitespace "A\r\nB\rC" = "A\nB\nC"
    ∧ _normalize_whitespace "  A\n\n\n\n\nB  " = "A\n\nB"
    ∧ _normalize_whitespace "A\n\nB" = "A\n\nB" := by
  refine ⟨?_, normNewlines_id, ?_, ?_, rfl, rfl, rfl⟩
  · intro s hc
    have h1 : '\r' ∈ stripChars (collapseBlank (normNewlines s.toList)) := by
      simpa [_normalize_whitespace, pyStrip, toList_mk] using hc
    have h2 := stripChars_subset _ _ h1
    unfold collapseBlank at h2
    have h3 := collapseBlankF_subset _ _ _ h2
    exact normNewlines_no_cr _ h3
  · intro a k b ha hb
    rw [collapseBlank_nonl_append a (List.replicate k '\n' ++ b) ha,
      collapseBlank_run k b hb]
  · intro s c
    constructor
    · intro h
      have h1 : (stripChars (collapseBlank (normNewlines s.toList))).head? = some c := by
        simpa [_normalize_whitespace, pyStrip, toList_mk] using h
      exact stripChars_head _ _ h1
    · intro h
      have h1 : (stripChars (collapseBlank (normNewlines s.toList))).getLast? = some c := by
        simpa [_normalize_whitespace, pyStrip, toList_mk] using h
      exact stripChars_getLast _ _ h1

/-- Witness for C7 amended: a run of five newlines between `A` and `B`
collapses to `min 5 2 = 2`. -/
theorem c7_normalize_whitespace_amended_witness :
    collapseBlank (['A'] ++ (List.replicate 5 '\n' ++ ['B'])) =
      ['A'] ++ (List.replicate (min 5 2) '\n' ++ collapseBlank ['B']) :=
  c7_normalize_whitespace_amended.2.2.1 ['A'] 5 ['B'] (by decide) (by decide)

/-! ## Claim C10: lines before the first speaker label (corrected) -/

/-- Counterexample to C10 as stated: in `"Bad line.\nOperator"` the line
`"Bad line."` precedes the first candidate label `"Operator"`, but since
no text follows the label, no block is ever flushed and the fallback
emits the whole input — including the preceding line — under the
`"Unknown"` speaker. -/
theorem c10_counterexample :
    looks_like_speaker "Bad line." = false ∧
    looks_like_speaker "Operator" = true ∧
    procLines "Bad line.\nOperator" = ["Bad line.", "Operator"] ∧
    _parse_speaker_blocks_from_text "Bad line.\nOperator" =
      [⟨"Unknown", "Bad line.\nOperator"⟩] ∧
    strContains "Bad line.\nOperator" "Bad line." = true :=
  ⟨by decide, by decide, by decide, by decide, by decide⟩

/-- C10 amended: the non-empty lines preceding the first candidate label
are discarded — the segmenter's output is computed from the suffix
starting at the first label alone — provided at least one block is
emitted from that suffix; when no block is emitted, the fallback returns
the entire input text (including those lines) under `"Unknown"`. -/
theorem c10_leading_lines_discarded (t : String) (pre post : List String) (lab : String)
    (hsplit : procLines t = pre ++ lab :: post)
    (hpre : ∀ l ∈ pre, looks_like_speaker l = false)
    (_hlab : looks_like_speaker lab = true)
    (hne : segLoop (lab :: post) none [] [] ≠ []) :
    _parse_speaker_blocks_from_text t = segLoop (lab :: post) none [] [] := by
  have h1 : segLoop (procLines t) none [] [] = segLoop (lab :: post) none [] [] := by
    rw [hsplit]
    exact segLoop_skip pre (lab :: post) hpre
  have h2 : (segLoop (lab :: post) none [] []).isEmpty = false := by
    cases hsg : segLoop (lab :: post) none [] [] with
    | nil => exact absurd hsg hne
    | cons a l => rfl
  simp only [_parse_speaker_blocks_from_text, h1, h2]
  simp

/-- Witness for C10 amended on `"Bad line.\nOperator\nWelcome, all."`. -/
theorem c10_leading_lines_discarded_witness :
    procLines "Bad line.\nOperator\nWelcome, all." =
        ["Bad line."] ++ "Operator" :: ["Welcome, all."] ∧
      _parse_speaker_blocks_from_text "Bad line.\nOperator\nWelcome, all." =
        segLoop ("Operator" :: ["Welcome, all."]) none [] [] :=
  ⟨by decide, c10_leading_lines_discarded _ ["Bad line."] ["Welcome, all."] "Operator"
    (by decide) (by decide) (by decide) (by decide)⟩

/-! ## Claim C6: already-processed skip and idempotent re-run (corrected) -/

lemma toList_eq_nil (s : String) (h : s.toList = []) : s = "" := by
  cases s with
  | mk data =>
    have hd : data = [] := h
    rw [hd]

lemma utf8Len_pos (s : String) (h : s ≠ "") : 0 < utf8Len s := by
  unfold utf8Len
  cases hl : s.toList with
  | nil => exact absurd (toList_eq_nil s hl) h
  | cons c rest =>
    rw [List.map_cons, List.sum_cons]
    have hc : 0 < c.utf8Size := Char.utf8Size_pos c
    omega

lemma csvFileBytes_pos (blocks : List SpeakerBlock) : 0 < csvFileBytes blocks := by
  simp [csvFileBytes, csvHeaderBytes]

lemma txt_ne_csv (stem : String) : stem ++ ".txt" ≠ stem ++ ".csv" := by
  intro h
  have hd := congrArg String.data h
  rw [String.data_append, String.data_append] at hd
  exact absurd (List.append_cancel_left hd) (by decide)

lemma posFile_write_self (fs : FS) (k : String) (sz : Nat) (h : 0 < sz) :
    posFile (writeFile fs k sz) k = true := by
  simp [posFile, writeFile, h]

lemma posFile_write_mono (fs : FS) (k p : String) (sz : Nat) (h : 0 < sz)
    (hp : posFile fs p = true) : posFile (writeFile fs k sz) p = true := by
  by_cases hpk : p = k
  · subst hpk; simp [posFile, writeFile, h]
  · simpa [posFile, writeFile, hpk] using hp

/-- The writes of a unit preserve positive files, provided a saved text is
never empty. -/
lemma unitWrites_pos_mono (cfg : BatchConfig) (fs : FS) (stem : String) (r : UnitResult)
    (hg : ∀ t, r = .ok t → cfg.save_txt = true → t ≠ "") (k : String)
    (hk : posFile fs k = true) : posFile (unitWrites cfg fs stem r) k = true := by
  cases r with
  | ok t =>
    have ht : cfg.save_txt = true → t ≠ "" := hg t rfl
    simp only [unitWrites]
    by_cases hst : cfg.save_txt
    · by_cases hsc : cfg.save_csv
      · simp only [hst, hsc, if_true]
        exact posFile_write_mono _ _ _ _ (csvFileBytes_pos _)
          (posFile_write_mono _ _ _ _ (utf8Len_pos t (ht hst)) hk)
      · simp only [hst, if_true, hsc, if_false]
        exact posFile_write_mono _ _ _ _ (utf8Len_pos t (ht hst)) hk
    · by_cases hsc : cfg.save_csv
      · simp only [hst, if_false, hsc, if_true]
        exact posFile_write_mono _ _ _ _ (csvFileBytes_pos _) hk
      · simp only [hst, if_false, hsc]
        exact hk
  | skippedDone => exact hk
  | skippedScrape m => exact hk
  | skippedUnexpected m => exact hk

/-- After a successful unit's writes, its expected files are present and
non-empty. -/
lemma unitWrites_establish (cfg : BatchConfig) (fs : FS) (stem : String) (t : String)
    (ht : cfg.save_txt = true → t ≠ "") :
    expectedPosIn cfg (unitWrites cfg fs stem (.ok t)) stem := by
  constructor
  · intro hst
    simp only [unitWrites, hst, if_true]
    by_cases hsc : cfg.save_csv
    · simp only [hsc, if_true]
      exact posFile_write_mono _ _ _ _ (csvFileBytes_pos _)
        (posFile_write_self _ _ _ (utf8Len_pos t (ht hst)))
    · simp only [hsc, if_false]
      exact posFile_write_self _ _ _ (utf8Len_pos t (ht hst))
  · intro hsc
    simp only [unitWrites, hsc, if_true]
    by_cases hst : cfg.save_txt <;> simp only [hst, if_true, if_false] <;>
      exact posFile_write_self _ _ _ (csvFileBytes_pos _)

/-- Extracting file positivity from a passed entry guard. -/
lemma pos_of_already (cfg : BatchConfig) (fs : FS) (stem : String)
    (h : _already_processed fs stem cfg.save_txt cfg.save_csv = true) :
    expectedPosIn cfg fs stem := by
  cases hst : cfg.save_txt <;> cases hsc : cfg.save_csv <;>
    simp only [_already_processed, expectedFiles, hst, hsc, if_true, if_false] at h <;>
    simp_all [expectedPosIn]

/-- The entry guard passes when every expected file is present and
non-empty (and at least one output is requested). -/
lemma already_of_pos (cfg : BatchConfig) (fs : FS) (stem : String)
    (hflag : cfg.save_txt = true ∨ cfg.save_csv = true)
    (h : expectedPosIn cfg fs stem) :
    _already_processed fs stem cfg.save_txt cfg.save_csv = true := by
  obtain ⟨h1, h2⟩ := h
  cases hst : cfg.save_txt <;> cases hsc : cfg.save_csv <;>
    simp_all [_already_processed, expectedFiles]

/-- A successful batch run both preserves positive files and leaves every
unit's expected outputs present and non-empty — provided every unit ended
as skipped-done or OK, with no saved text empty. -/
lemma runBatch_establishes (cfg : BatchConfig) (env : String → Nat → UnitFetchResult) :
    ∀ stems fs trs fs1, runBatch cfg env stems fs = .ok (trs, fs1) →
      (∀ tr ∈ trs, tr.result = .skippedDone ∨
        ∃ t, tr.result = .ok t ∧ (cfg.save_txt = true → t ≠ "")) →
      (∀ k, posFile fs k = true → posFile fs1 k = true)
      ∧ (∀ stem ∈ stems, expectedPosIn cfg fs1 stem) := by
  intro stems
  induction stems with
  | nil =>
    intro fs trs fs1 h _
    simp only [runBatch, Except.ok.injEq, Prod.mk.injEq] at h
    rw [← h.2]
    exact ⟨fun k hk => hk, by simp⟩
  | cons stem rest ih =>
    intro fs trs fs1 h hgood
    by_cases hap : _already_processed fs stem cfg.save_txt cfg.save_csv
    · simp only [runBatch, runUnit_already cfg (env stem) fs stem hap] at h
      cases hrb : runBatch cfg env rest fs with
      | error m => simp [hrb] at h
      | ok p =>
        obtain ⟨trs2, fs2⟩ := p
        simp only [hrb, Except.ok.injEq, Prod.mk.injEq] at h
        obtain ⟨htrs, hfs⟩ := h
        have hgood2 : ∀ tr ∈ trs2, tr.result = .skippedDone ∨
            ∃ t, tr.result = .ok t ∧ (cfg.save_txt = true → t ≠ "") := by
          intro tr htr
          exact hgood tr (by rw [← htrs]; simp [htr])
        obtain ⟨hmono, hrest⟩ := ih fs trs2 fs2 hrb hgood2
        subst hfs
        refine ⟨hmono, ?_⟩
        intro s hs
        rcases List.mem_cons.mp hs with rfl | hs2
        · have hp := pos_of_already cfg fs s hap
          exact ⟨fun hst => hmono _ (hp.1 hst), fun hsc => hmono _ (hp.2 hsc)⟩
        · exact hrest s hs2
    · have hap2 : _already_processed fs stem cfg.save_txt cfg.save_csv = false := by
        simpa using hap
      cases hpu : processUnitLoop (env stem) cfg.maxRetries 0 with
      | error m =>
        simp [runBatch, runUnit_fatal cfg (env stem) fs stem m hap2 hpu] at h
      | ok p =>
        obtain ⟨r, n⟩ := p
        simp only [runBatch, runUnit_run cfg (env stem) fs stem r n hap2 hpu] at h
        cases hrb : runBatch cfg env rest (unitWrites cfg fs stem r) with
        | error m => simp [hrb] at h
        | ok p2 =>
          obtain ⟨trs2, fs2⟩ := p2
          simp only [hrb, Except.ok.injEq, Prod.mk.injEq] at h
          obtain ⟨htrs, hfs⟩ := h
          have hhead : (⟨r, n, true⟩ : UnitTrace).result = .skippedDone ∨
              ∃ t, (⟨r, n, true⟩ : UnitTrace).result = .ok t ∧
                (cfg.save_txt = true → t ≠ "") := by
            apply hgood
            rw [← htrs]
            simp
          have hne : r ≠ .skippedDone :=
            processUnitFuel_not_skippedDone (env stem) cfg.maxRetries _ 0 r n hpu
          rcases hhead with hsd | ⟨t, hrt, htne⟩
          · exact absurd hsd hne
          · have hrt2 : r = .ok t := hrt
            have hgw : ∀ t2, r = .ok t2 → cfg.save_txt = true → t2 ≠ "" := by
              intro t2 h2 hst
              rw [hrt2] at h2
              injection h2 with h3
              rw [← h3]
              exact htne hst
            have hgood2 : ∀ tr ∈ trs2, tr.result = .skippedDone ∨
                ∃ t2, tr.result = .ok t2 ∧ (cfg.save_txt = true → t2 ≠ "") := by
              intro tr htr
              exact hgood tr (by rw [← htrs]; simp [htr])
            obtain ⟨hmono, hrest⟩ := ih (unitWrites cfg fs stem r) trs2 fs2 hrb hgood2
            subst hfs
            refine ⟨?_, ?_⟩
            · intro k hk
              exact hmono k (unitWrites_pos_mono cfg fs stem r hgw k hk)
            · intro s hs
              rcases List.mem_cons.mp hs with rfl | hs2
              · have hp : expectedPosIn cfg (unitWrites cfg fs s r) s := by
                  rw [hrt2]
                  exact unitWrites_establish cfg fs s t htne
                exact ⟨fun hst => hmono _ (hp.1 hst), fun hsc => hmono _ (hp.2 hsc)⟩
              · exact hrest s hs2

/-- A batch over units whose expected outputs are all present resolves
every unit to skipped-done, performs no writes and no fetches. -/
lemma runBatch_all_skipped (cfg : BatchConfig) (env : String → Nat → UnitFetchResult)
    (hflag : cfg.save_txt = true ∨ cfg.save_csv = true) :
    ∀ stems fs, (∀ stem ∈ stems, expectedPosIn cfg fs stem) →
      runBatch cfg env stems fs =
        .ok (stems.map (fun _ => ⟨.skippedDone, 0, false⟩), fs) := by
  intro stems
  induction stems with
  | nil => intro fs _; rfl
  | cons stem rest ih =>
    intro fs h
    have hap := already_of_pos cfg fs stem hflag (h stem (by simp))
    have hrest := ih fs (fun s hs => h s (by simp [hs]))
    simp [runBatch, runUnit_already cfg (env stem) fs stem hap, hrest]

lemma totalFetches_skipped (stems : List String) :
    totalFetches (stems.map (fun _ => (⟨.skippedDone, 0, false⟩ : UnitTrace))) = 0 := by
  induction stems with
  | nil => rfl
  | cons stem rest ih => simpa [totalFetches] using ih

/-- Counterexample to C6 as stated: one unit whose fetch fails with a
non-rate-limit scrape error.  The first run skips it without writing any
output file (the filesystem is returned unchanged), so a second run over
the same directory state performs one network fetch again and the unit
does not resolve to skipped — the claimed zero-network idempotence fails
whenever any unit was error-skipped. -/
theorem c6_counterexample :
    runBatch ⟨true, true, 5⟩ (fun _ _ => .scrapeError "HTTP 403 for url") ["T1_2024_Q1"]
        (fun _ => none) =
      .ok ([⟨.skippedScrape "HTTP 403 for url", 1, true⟩], fun _ => none) ∧
    totalFetches [⟨.skippedScrape "HTTP 403 for url", 1, true⟩] = 1 ∧
    (⟨.skippedScrape "HTTP 403 for url", 1, true⟩ : UnitTrace).result ≠ .skippedDone :=
  ⟨rfl, rfl, by decide⟩

/-- C6 amended: (1) a unit whose expected output files (txt when text
saving is requested, csv when CSV saving is requested, at least one
requested) all exist non-empty is skipped with zero fetches and an
unchanged filesystem; (2) if a batch run completes with every unit
skipped-done or OK — and no saved text empty — then re-running the batch
against the resulting output state performs zero network fetches, with
every unit resolving to skipped. -/
theorem c6_idempotent_skip_amended :
    (∀ (cfg : BatchConfig) (env : Nat → UnitFetchResult) (fs : FS) (stem : String),
        (cfg.save_txt = true ∨ cfg.save_csv = true) → expectedPosIn cfg fs stem →
        runUnit cfg env fs stem = .ok (⟨.skippedDone, 0, false⟩, fs))
    ∧ (∀ (cfg : BatchConfig) (env : String → Nat → UnitFetchResult)
        (stems : List String) (fs0 : FS) (trs : List UnitTrace) (fs1 : FS),
        runBatch cfg env stems fs0 = .ok (trs, fs1) →
        (∀ tr ∈ trs, tr.result = .skippedDone ∨
          ∃ t, tr.result = .ok t ∧ (cfg.save_txt = true → t ≠ "")) →
        (cfg.save_txt = true ∨ cfg.save_csv = true) →
        runBatch cfg env stems fs1 =
            .ok (stems.map (fun _ => ⟨.skippedDone, 0, false⟩), fs1)
          ∧ totalFetches (stems.map (fun _ => (⟨.skippedDone, 0, false⟩ : UnitTrace))) = 0) := by
  constructor
  · intro cfg env fs stem hflag hpos
    exact runUnit_already cfg env fs stem (already_of_pos cfg fs stem hflag hpos)
  · intro cfg env stems fs0 trs fs1 hrun hgood hflag
    obtain ⟨hmono, hall⟩ := runBatch_establishes cfg env stems fs0 trs fs1 hrun hgood
    exact ⟨runBatch_all_skipped cfg env hflag stems fs1 hall, totalFetches_skipped stems⟩

/-- Witness for C6 amended: after one successful run, the re-run resolves
the unit to skipped with the filesystem unchanged. -/
theorem c6_idempotent_skip_amended_witness :
    runBatch ⟨true, true, 5⟩ c6Env ["S1"] (fun _ => none) =
        .ok ([⟨.ok "Hello world.", 1, true⟩], c6Fs1) ∧
      runBatch ⟨true, true, 5⟩ c6Env ["S1"] c6Fs1 =
        .ok (["S1"].map (fun _ => ⟨.skippedDone, 0, false⟩), c6Fs1) :=
  ⟨rfl,
    (c6_idempotent_skip_amended.2 ⟨true, true, 5⟩ c6Env ["S1"] (fun _ => none)
      [⟨.ok "Hello world.", 1, true⟩] c6Fs1 rfl
      (by
        intro tr htr
        rw [List.mem_singleton] at htr
        subst htr
        exact Or.inr ⟨"Hello world.", rfl, fun _ => by decide⟩)
      (Or.inl rfl)).1⟩

end CallEarnings
